import Mathlib

/-!
Shallow embedding of the worker-pool scheduler in
`src/libs/http-server/index.js` of the `whatsapp-bot-api` repository.

The embedding models the `WorkerManager` object: its mutable fields
(`maxWorkers`, `currWorker`, `taskQueue`, `timeoutMs`, `useLogger`), the
operations `createQueueId`, `addTask` and `runNext`, and the settlement of
the `Promise.race` between the worker promise and the timeout promise
(the `.then`/`.catch` continuations of `runNext`).  Asynchrony is made
explicit as a step function over events: an `addTask` call, or the
settlement of the race of one admitted task with a given outcome.

History fields (`running`, `futures`, `terminated`, `escaped`, `submitted`,
`admitted`, `nextIdx`) instrument the state so that properties about
admission order, promise settlement, `worker.terminate()` calls and
re-thrown errors can be stated; the operational fields and the control flow
are translated line by line from the JavaScript source.
-/

namespace HttpServer

/-- Format of an HTTP body synthesized for a timed-out request. -/
inductive BodyFormat
  | json
  | plainHtml
deriving DecidableEq

/-- Modelled from the spec: `./exceptions.js` (`ErrorRequestTimeout.toHttpApiResponse`)
is not under `src/`; per the spec, a timeout on an API resource is formatted as a
JSON error body. -/
def toHttpApiResponse : BodyFormat := BodyFormat.json

/-- Modelled from the spec: `./exceptions.js` (`ErrorRequestTimeout.toHttpResponse`)
is not under `src/`; per the spec, a timeout on a page resource is formatted as a
plain-text/HTML body. -/
def toHttpResponse : BodyFormat := BodyFormat.plainHtml

/-- The single message a worker posts back on success, destructured by
`handleRequest` as `{ isApiResource, httpCode, data }`. -/
structure WorkerResponse where
  isApiResource : Bool
  httpCode : Nat
  data : String
deriving DecidableEq

/-- A value passed to the caller-side `resolve` of the promise created in
`addTask`: either the worker's message, or a synthesized timeout body. -/
inductive SettledValue
  | workerMessage (r : WorkerResponse)
  | timeoutBody (format : BodyFormat)
deriving DecidableEq

/-- Settlement state of the promise returned by `addTask`. -/
inductive FutureState
  | pending
  | resolved (v : SettledValue)
  | rejected (err : String)
deriving DecidableEq

/-- The `workerData` record built in `addTask`. -/
structure WorkerData where
  queueId : String
  useLogger : Bool
  isApiResource : Bool
  handlerPath : String
  request : String
deriving DecidableEq

/-- One entry of `taskQueue`: the `workerData` plus (via `idx`) the identity
of the `resolve`/`reject` pair of the promise created for it. -/
structure Task where
  idx : Nat
  workerData : WorkerData
deriving DecidableEq

/-- The state of the `WorkerManager` object, plus history fields. -/
structure ManagerState where
  maxWorkers : Nat
  currWorker : Int
  taskQueue : List Task
  timeoutMs : Nat
  useLogger : Bool
  /-- Tasks admitted whose race has not settled yet. -/
  running : List Task
  /-- Settlement state of each created promise, keyed by task index. -/
  futures : List (Nat × FutureState)
  /-- Indices of workers on which `worker.terminate()` was called. -/
  terminated : List Nat
  /-- Indices whose `.catch` continuation re-threw (`throw err`). -/
  escaped : List Nat
  /-- History: every task ever passed to `addTask`, in order. -/
  submitted : List Task
  /-- History: every task ever popped by `runNext`, in admission order. -/
  admitted : List Task
  /-- Next fresh task index. -/
  nextIdx : Nat
deriving DecidableEq

/-- `createQueueId()`: `` `q${ queueCount }.${ dateTime }` `` with
`queueCount = this.taskQueue.length` and `dateTime = Date.now()`. -/
def createQueueId (queueCount : Nat) (dateTime : Nat) : String :=
  "q" ++ toString queueCount ++ "." ++ toString dateTime

/-- `runNext()`: returns unchanged if `currWorker >= maxWorkers` or the queue
is empty; otherwise shifts the queue head, increments `currWorker` and spawns
the worker (recorded in `running`/`admitted`). -/
def runNext (s : ManagerState) : ManagerState :=
  if s.currWorker ≥ (s.maxWorkers : Int) then s
  else
    match s.taskQueue with
    | [] => s
    | t :: rest =>
      { s with
        taskQueue := rest
        currWorker := s.currWorker + 1
        running := s.running ++ [t]
        admitted := s.admitted ++ [t] }

/-- `addTask(handlerPath, req)`: builds `workerData` (its `queueId` from the
current queue length and the current time, its `isApiResource` from
`req.isApiRoute`), pushes the task with a fresh promise, then calls
`runNext()`. -/
def addTask (s : ManagerState) (handlerPath : String) (isApiRoute : Bool)
    (request : String) (now : Nat) : ManagerState :=
  let queueId := createQueueId s.taskQueue.length now
  let wd : WorkerData :=
    { queueId := queueId, useLogger := s.useLogger, isApiResource := isApiRoute,
      handlerPath := handlerPath, request := request }
  let t : Task := { idx := s.nextIdx, workerData := wd }
  runNext { s with
    taskQueue := s.taskQueue ++ [t]
    futures := s.futures ++ [(s.nextIdx, FutureState.pending)]
    submitted := s.submitted ++ [t]
    nextIdx := s.nextIdx + 1 }

/-- Record a settlement of the promise with index `i`. -/
def setFuture (fs : List (Nat × FutureState)) (i : Nat) (v : FutureState) :
    List (Nat × FutureState) :=
  fs.map fun p => if p.1 = i then (i, v) else p

/-- The error with which the race's promise rejects: the timeout promise's
`ErrorRequestTimeout`, the exit handler's `ErrorWorkerExit`, or an error
forwarded from the worker's `error` event. -/
inductive RaceError
  | requestTimeout
  | workerExit (exitCode : Int)
  | appError (message : String)
deriving DecidableEq

/-- Outcome of `Promise.race([workerPromise, timeoutPromise])`. -/
inductive RaceOutcome
  | message (r : WorkerResponse)
  | raceErr (e : RaceError)
deriving DecidableEq

/-- The `.then`/`.catch` continuations attached to the race in `runNext`,
run when the race of the admitted task `t` settles with outcome `o`.
In the `.catch`: `worker.terminate()` first, then classification; the
`ErrorWorkerExit` branch does `throw err`, which aborts the callback, so in
that branch neither `this.currWorker--` nor `this.runNext()` is reached. -/
def settleStep (s : ManagerState) (t : Task) (o : RaceOutcome) : ManagerState :=
  let s1 := { s with running := s.running.eraseP (fun u => u.idx == t.idx) }
  match o with
  | RaceOutcome.message r =>
    runNext { s1 with
      futures := setFuture s1.futures t.idx
        (FutureState.resolved (SettledValue.workerMessage r))
      currWorker := s1.currWorker - 1 }
  | RaceOutcome.raceErr e =>
    let s2 := { s1 with terminated := s1.terminated ++ [t.idx] }
    match e with
    | RaceError.requestTimeout =>
      let body := if t.workerData.isApiResource then toHttpApiResponse else toHttpResponse
      runNext { s2 with
        futures := setFuture s2.futures t.idx
          (FutureState.resolved (SettledValue.timeoutBody body))
        currWorker := s2.currWorker - 1 }
    | RaceError.workerExit _ =>
      { s2 with escaped := s2.escaped ++ [t.idx] }
    | RaceError.appError m =>
      runNext { s2 with
        futures := setFuture s2.futures t.idx (FutureState.rejected m)
        currWorker := s2.currWorker - 1 }

/-- An external event: a call to `addTask`, or the settlement of the race of
the running task with index `i`.  A `workerExit` with exit code `0` does not
reject the worker promise (the `exit` handler checks `exitCode !== 0`), and a
settlement for a task that is not running cannot occur (a promise settles
only once), so both leave the state unchanged. -/
inductive Event
  | addTask (handlerPath : String) (isApiRoute : Bool) (request : String) (now : Nat)
  | settle (i : Nat) (o : RaceOutcome)
deriving DecidableEq

/-- One scheduler step. -/
def step (s : ManagerState) (e : Event) : ManagerState :=
  match e with
  | Event.addTask hp api req now => addTask s hp api req now
  | Event.settle i o =>
    match s.running.find? (fun u => u.idx == i) with
    | none => s
    | some t =>
      match o with
      | RaceOutcome.raceErr (RaceError.workerExit c) =>
        if c = 0 then s else settleStep s t o
      | _ => settleStep s t o

/-- Run a sequence of events. -/
def run (s : ManagerState) (es : List Event) : ManagerState :=
  es.foldl step s

/-- The initial `WorkerManager` state with a given `maxWorkers`; all other
fields as in the source literal (`currWorker: 0`, `taskQueue: []`,
`timeoutMs: 10000`, `useLogger: false`). -/
def initState (maxW : Nat) : ManagerState :=
  { maxWorkers := maxW, currWorker := 0, taskQueue := [], timeoutMs := 10000,
    useLogger := false, running := [], futures := [], terminated := [],
    escaped := [], submitted := [], admitted := [], nextIdx := 0 }

/-- The `WorkerManager` literal of the source: `maxWorkers: 10`. -/
def workerManagerInit : ManagerState := initState 10

/-- Look up the settlement state of the promise with index `i`. -/
def futureOf (s : ManagerState) (i : Nat) : Option FutureState :=
  (s.futures.find? (fun p => p.1 == i)).map Prod.snd

/-- The response action issued by `handleRequest`'s `.then` continuation:
`res.status(httpCode).json(data)` or `res.status(httpCode).send(data)`. -/
inductive HttpAction
  | jsonBody (status : Nat) (body : String)
  | sendBody (status : Nat) (body : String)
deriving DecidableEq

/-- The `.then` continuation of `handleRequest`: destructures
`{ isApiResource, httpCode, data }` and formats the response. -/
def handleRequestRespond (r : WorkerResponse) : HttpAction :=
  if r.isApiResource then HttpAction.jsonBody r.httpCode r.data
  else HttpAction.sendBody r.httpCode r.data

/-! ## Frame lemmas for `runNext` -/

lemma runNext_maxWorkers (s : ManagerState) : (runNext s).maxWorkers = s.maxWorkers := by
  unfold runNext
  split
  · rfl
  · split <;> rfl

lemma runNext_futures (s : ManagerState) : (runNext s).futures = s.futures := by
  unfold runNext
  split
  · rfl
  · split <;> rfl

lemma runNext_terminated (s : ManagerState) : (runNext s).terminated = s.terminated := by
  unfold runNext
  split
  · rfl
  · split <;> rfl

lemma runNext_escaped (s : ManagerState) : (runNext s).escaped = s.escaped := by
  unfold runNext
  split
  · rfl
  · split <;> rfl

lemma runNext_submitted (s : ManagerState) : (runNext s).submitted = s.submitted := by
  unfold runNext
  split
  · rfl
  · split <;> rfl

/-! ## The pool-slot invariant (claim C1) -/

/-- The slot counter dominates the number of running workers and never
exceeds `maxWorkers`. -/
def PoolInv (s : ManagerState) : Prop :=
  (s.running.length : Int) ≤ s.currWorker ∧ s.currWorker ≤ (s.maxWorkers : Int)

lemma poolInv_runNext {s : ManagerState} (h : PoolInv s) : PoolInv (runNext s) := by
  obtain ⟨h1, h2⟩ := h
  unfold PoolInv runNext
  split
  · exact ⟨h1, h2⟩
  · rename_i hgate
    split
    · exact ⟨h1, h2⟩
    · rename_i t rest heq
      dsimp only
      simp only [List.length_append, List.length_cons, List.length_nil]
      constructor <;> push_cast <;> omega

lemma poolInv_addTask {s : ManagerState} (h : PoolInv s)
    (hp : String) (api : Bool) (req : String) (now : Nat) :
    PoolInv (addTask s hp api req now) := by
  simp only [addTask]
  apply poolInv_runNext
  exact h

lemma poolInv_settleStep {s : ManagerState} {t : Task} (o : RaceOutcome)
    (hmem : t ∈ s.running) (h : PoolInv s) : PoolInv (settleStep s t o) := by
  obtain ⟨h1, h2⟩ := h
  have hlen : (s.running.eraseP (fun u => u.idx == t.idx)).length + 1
      = s.running.length :=
    List.length_eraseP_add_one hmem (by simp)
  cases o with
  | message r =>
    simp only [settleStep]
    apply poolInv_runNext
    refine ⟨?_, ?_⟩ <;> dsimp only <;> omega
  | raceErr e =>
    cases e with
    | requestTimeout =>
      simp only [settleStep]
      apply poolInv_runNext
      refine ⟨?_, ?_⟩ <;> dsimp only <;> omega
    | workerExit c =>
      simp only [settleStep]
      refine ⟨?_, ?_⟩ <;> dsimp only <;> omega
    | appError m =>
      simp only [settleStep]
      apply poolInv_runNext
      refine ⟨?_, ?_⟩ <;> dsimp only <;> omega

lemma poolInv_step {s : ManagerState} (e : Event) (h : PoolInv s) :
    PoolInv (step s e) := by
  cases e with
  | addTask hp api req now => exact poolInv_addTask h hp api req now
  | settle i o =>
    simp only [step]
    split
    · exact h
    · rename_i t hfind
      have hmem : t ∈ s.running := List.mem_of_find?_eq_some hfind
      split
      · split
        · exact h
        · exact poolInv_settleStep _ hmem h
      · exact poolInv_settleStep _ hmem h

lemma poolInv_run {s : ManagerState} (h : PoolInv s) (es : List Event) :
    PoolInv (run s es) := by
  induction es generalizing s with
  | nil => exact h
  | cons e es ih => exact ih (poolInv_step e h)

lemma settleStep_maxWorkers (s : ManagerState) (t : Task) (o : RaceOutcome) :
    (settleStep s t o).maxWorkers = s.maxWorkers := by
  cases o with
  | message r => simp only [settleStep, runNext_maxWorkers]
  | raceErr e => cases e <;> simp only [settleStep, runNext_maxWorkers]

lemma step_maxWorkers (s : ManagerState) (e : Event) :
    (step s e).maxWorkers = s.maxWorkers := by
  cases e with
  | addTask hp api req now =>
    simp only [step, addTask, runNext_maxWorkers]
  | settle i o =>
    simp only [step]
    split
    · rfl
    · split
      · split
        · rfl
        · rw [settleStep_maxWorkers]
      · rw [settleStep_maxWorkers]

lemma run_maxWorkers (s : ManagerState) (es : List Event) :
    (run s es).maxWorkers = s.maxWorkers := by
  induction es generalizing s with
  | nil => rfl
  | cons e es ih => rw [run, List.foldl_cons, ← run, ih, step_maxWorkers]

/-- C1: for every sequence of submissions and race settlements, the counter
of admitted-and-running execution units satisfies
`0 ≤ currWorker ≤ maxWorkers` at all times (in particular for the source's
default `maxWorkers = 10`): the scheduler never admits more than
`maxWorkers` execution units concurrently. -/
theorem currWorker_bounded (m : Nat) (es : List Event) :
    0 ≤ (run (initState m) es).currWorker ∧
    (run (initState m) es).currWorker ≤ (m : Int) ∧
    ((run (initState m) es).running.length : Int) ≤ (m : Int) := by
  have h : PoolInv (run (initState m) es) :=
    poolInv_run ⟨by simp [initState], by simp [initState]⟩ es
  have hm : (run (initState m) es).maxWorkers = m := run_maxWorkers (initState m) es
  obtain ⟨h1, h2⟩ := h
  rw [hm] at h2
  refine ⟨?_, ?_, ?_⟩ <;> omega

/-! ## The FIFO invariant (claim C3) -/

/-- The admission history followed by the pending queue is exactly the
submission history: tasks are admitted in submission order, each exactly
once. -/
def QueueInv (s : ManagerState) : Prop :=
  s.admitted ++ s.taskQueue = s.submitted

lemma queueInv_runNext {s : ManagerState} (h : QueueInv s) : QueueInv (runNext s) := by
  unfold QueueInv runNext
  split
  · exact h
  · split
    · exact h
    · rename_i t rest heq
      dsimp only
      unfold QueueInv at h
      rw [heq] at h
      simpa [List.append_assoc] using h

lemma queueInv_addTask {s : ManagerState} (h : QueueInv s)
    (hp : String) (api : Bool) (req : String) (now : Nat) :
    QueueInv (addTask s hp api req now) := by
  simp only [addTask]
  apply queueInv_runNext
  unfold QueueInv at h ⊢
  dsimp only
  rw [← List.append_assoc, h]

lemma queueInv_settleStep {s : ManagerState} (t : Task) (o : RaceOutcome)
    (h : QueueInv s) : QueueInv (settleStep s t o) := by
  cases o with
  | message r =>
    simp only [settleStep]
    apply queueInv_runNext
    exact h
  | raceErr e =>
    cases e with
    | requestTimeout =>
      simp only [settleStep]
      apply queueInv_runNext
      exact h
    | workerExit c =>
      simp only [settleStep]
      exact h
    | appError m =>
      simp only [settleStep]
      apply queueInv_runNext
      exact h

lemma queueInv_step {s : ManagerState} (e : Event) (h : QueueInv s) :
    QueueInv (step s e) := by
  cases e with
  | addTask hp api req now => exact queueInv_addTask h hp api req now
  | settle i o =>
    simp only [step]
    split
    · exact h
    · split
      · split
        · exact h
        · exact queueInv_settleStep _ _ h
      · exact queueInv_settleStep _ _ h

lemma queueInv_run (s : ManagerState) (h : QueueInv s) (es : List Event) :
    QueueInv (run s es) := by
  induction es generalizing s with
  | nil => exact h
  | cons e es ih => exact ih _ (queueInv_step e h)

/-- C3: for every sequence of submissions and settlements, the tasks admitted
so far, in admission order, followed by the still-pending queue, equal the
full submission history in submission order: admission is strict FIFO, each
queue entry is removed exactly once at admission time, and the earliest
submission is always admitted first. -/
theorem fifo_admission (m : Nat) (es : List Event) :
    (run (initState m) es).admitted ++ (run (initState m) es).taskQueue
      = (run (initState m) es).submitted :=
  queueInv_run (initState m) rfl es

/-! ## Zero capacity (claim C7) -/

/-- With `maxWorkers = 0` the scheduler never admits anything. -/
def ZeroInv (s : ManagerState) : Prop :=
  s.maxWorkers = 0 ∧ s.currWorker = 0 ∧ s.running = [] ∧ s.admitted = []

lemma runNext_of_gate {s : ManagerState}
    (h : s.currWorker ≥ (s.maxWorkers : Int) ∨ s.taskQueue = []) :
    runNext s = s := by
  unfold runNext
  split
  · rfl
  · rename_i hgate
    rcases h with h | h
    · exact absurd h hgate
    · simp only [h]

lemma zeroInv_addTask {s : ManagerState} (h : ZeroInv s)
    (hp : String) (api : Bool) (req : String) (now : Nat) :
    ZeroInv (addTask s hp api req now) := by
  obtain ⟨hm, hc, hr, ha⟩ := h
  simp only [addTask]
  rw [runNext_of_gate (Or.inl (by simp [hm, hc]))]
  exact ⟨hm, hc, hr, ha⟩

lemma zeroInv_step {s : ManagerState} (e : Event) (h : ZeroInv s) :
    ZeroInv (step s e) := by
  cases e with
  | addTask hp api req now => exact zeroInv_addTask h hp api req now
  | settle i o =>
    simp only [step, h.2.2.1, List.find?_nil]
    exact h

lemma zeroInv_run {s : ManagerState} (h : ZeroInv s) (es : List Event) :
    ZeroInv (run s es) := by
  induction es generalizing s with
  | nil => exact h
  | cons e es ih => exact ih (zeroInv_step e h)

/-- C7: `runNext` is a no-op — the state is returned unchanged and no
execution unit is spawned — whenever `currWorker >= maxWorkers` or the queue
is empty; in particular, with `maxWorkers = 0`, every submitted task stays
queued indefinitely (nothing is ever admitted or running, and the pending
queue is the full submission history) rather than failing. -/
theorem admission_gate_noop :
    (∀ s : ManagerState,
        s.currWorker ≥ (s.maxWorkers : Int) ∨ s.taskQueue = [] → runNext s = s)
    ∧ ∀ es : List Event,
        (run (initState 0) es).admitted = []
        ∧ (run (initState 0) es).running = []
        ∧ (run (initState 0) es).taskQueue = (run (initState 0) es).submitted := by
  constructor
  · exact fun s h => runNext_of_gate h
  · intro es
    have hz : ZeroInv (run (initState 0) es) :=
      zeroInv_run ⟨rfl, rfl, rfl, rfl⟩ es
    have hq : QueueInv (run (initState 0) es) :=
      queueInv_run (initState 0) rfl es
    refine ⟨hz.2.2.2, hz.2.2.1, ?_⟩
    have := hq
    unfold QueueInv at this
    rw [hz.2.2.2] at this
    simpa using this

/-- C7 witness: the gate no-op applied to a concrete state with an empty
queue. -/
theorem admission_gate_noop_witness : runNext (initState 3) = initState 3 :=
  admission_gate_noop.1 (initState 3) (Or.inr rfl)

/-! ## Settlement of the promise map -/

lemma find?_setFuture (fs : List (Nat × FutureState)) (i : Nat) (v : FutureState)
    (h : (fs.find? (fun p => p.1 == i)).isSome = true) :
    (setFuture fs i v).find? (fun p => p.1 == i) = some (i, v) := by
  induction fs with
  | nil => simp at h
  | cons p fs ih =>
    simp only [setFuture, List.map_cons]
    by_cases hp : p.1 = i
    · rw [if_pos hp]
      exact List.find?_cons_of_pos _ (by simp)
    · rw [if_neg hp]
      rw [List.find?_cons_of_neg _ (by simp [hp])]
      rw [List.find?_cons_of_neg _ (by simp [hp])] at h
      exact ih h

/-! ## Concrete reachable fixtures used by witnesses and counterexamples -/

/-- The first task submitted in the fixture traces below. -/
def taskA : Task :=
  { idx := 0,
    workerData := { queueId := createQueueId 0 5, useLogger := false,
                    isApiResource := true, handlerPath := "h", request := "r" } }

/-- One submission on a one-slot pool: `taskA` is admitted and running, the
queue is empty. -/
def sEmptyQ : ManagerState := run (initState 1) [Event.addTask "h" true "r" 5]

/-- Two submissions on a one-slot pool: `taskA` is running and a second task
is still queued. -/
def sTwo : ManagerState :=
  run (initState 1) [Event.addTask "h" true "r" 5, Event.addTask "g" false "p" 5]

/-! ## Slot release per outcome branch (claim C2) -/

/-- C2 counterexample: it is not true that every settled race decrements
`currWorker` by exactly one.  In the reachable state `sEmptyQ` (queue empty,
so the re-invoked `runNext` could not re-increment), settling `taskA`'s race
with an abnormal worker exit leaves `currWorker` unchanged: the `throw err`
in the `.catch` callback aborts the callback before `this.currWorker--` and
`this.runNext()` are reached. -/
theorem slot_release_claim_false :
    ¬ (∀ (s : ManagerState) (t : Task) (o : RaceOutcome),
        s.running.find? (fun u => u.idx == t.idx) = some t →
        s.taskQueue = [] →
        (step s (Event.settle t.idx o)).currWorker = s.currWorker - 1) := by
  intro h
  have hx := h sEmptyQ taskA (RaceOutcome.raceErr (RaceError.workerExit 1)) rfl rfl
  exact absurd hx (by decide)

/-- C2 (amended): for every admitted task whose race settles in the success,
timeout, or application-error branch, the slot counter is decremented exactly
once and `runNext` is re-invoked exactly once on the decremented state; but
in the abnormal-worker-exit branch the re-thrown `ErrorWorkerExit` skips both
the decrement and the re-invocation, so `currWorker` stays unchanged and no
queued task is admitted. -/
theorem slot_release_per_branch
    (s : ManagerState) (t : Task) (r : WorkerResponse) (m : String) (c : Int)
    (hfind : s.running.find? (fun u => u.idx == t.idx) = some t)
    (hc : c ≠ 0) :
    (∃ s1, step s (Event.settle t.idx (RaceOutcome.message r)) = runNext s1
       ∧ s1.currWorker = s.currWorker - 1 ∧ s1.taskQueue = s.taskQueue
       ∧ s1.maxWorkers = s.maxWorkers)
    ∧ (∃ s1, step s (Event.settle t.idx (RaceOutcome.raceErr RaceError.requestTimeout))
         = runNext s1
       ∧ s1.currWorker = s.currWorker - 1 ∧ s1.taskQueue = s.taskQueue
       ∧ s1.maxWorkers = s.maxWorkers)
    ∧ (∃ s1, step s (Event.settle t.idx (RaceOutcome.raceErr (RaceError.appError m)))
         = runNext s1
       ∧ s1.currWorker = s.currWorker - 1 ∧ s1.taskQueue = s.taskQueue
       ∧ s1.maxWorkers = s.maxWorkers)
    ∧ (step s (Event.settle t.idx (RaceOutcome.raceErr (RaceError.workerExit c)))).currWorker
        = s.currWorker
    ∧ (step s (Event.settle t.idx (RaceOutcome.raceErr (RaceError.workerExit c)))).admitted
        = s.admitted
    ∧ (step s (Event.settle t.idx (RaceOutcome.raceErr (RaceError.workerExit c)))).taskQueue
        = s.taskQueue := by
  refine ⟨⟨{ s with
      running := s.running.eraseP (fun u => u.idx == t.idx),
      futures := setFuture s.futures t.idx
        (FutureState.resolved (SettledValue.workerMessage r)),
      currWorker := s.currWorker - 1 }, ?_, rfl, rfl, rfl⟩,
    ⟨{ s with
      running := s.running.eraseP (fun u => u.idx == t.idx),
      terminated := s.terminated ++ [t.idx],
      futures := setFuture s.futures t.idx
        (FutureState.resolved (SettledValue.timeoutBody
          (if t.workerData.isApiResource then toHttpApiResponse else toHttpResponse))),
      currWorker := s.currWorker - 1 }, ?_, rfl, rfl, rfl⟩,
    ⟨{ s with
      running := s.running.eraseP (fun u => u.idx == t.idx),
      terminated := s.terminated ++ [t.idx],
      futures := setFuture s.futures t.idx (FutureState.rejected m),
      currWorker := s.currWorker - 1 }, ?_, rfl, rfl, rfl⟩, ?_, ?_, ?_⟩
  · simp only [step, hfind]
    rfl
  · simp only [step, hfind]
    rfl
  · simp only [step, hfind]
    rfl
  · simp only [step, hfind, if_neg hc]
    rfl
  · simp only [step, hfind, if_neg hc]
    rfl
  · simp only [step, hfind, if_neg hc]
    rfl

/-- C2 witness: in the reachable state `sTwo` (one task running, one queued),
an abnormal exit of the running worker leaves the counter at its old value
and the queued task unadmitted. -/
theorem slot_release_per_branch_witness :
    (step sTwo (Event.settle 0 (RaceOutcome.raceErr (RaceError.workerExit 1)))).currWorker
      = sTwo.currWorker :=
  (slot_release_per_branch sTwo taskA
    { isApiResource := true, httpCode := 200, data := "ok" } "err" 1 rfl
    (by decide)).2.2.2.1

/-! ## Timeout branch (claim C4) -/

/-- C4: when the timeout guard wins the race for an admitted task, the
scheduler terminates the worker and resolves (never rejects) the caller's
promise with the structured timeout outcome: the JSON error body
(`toHttpApiResponse`) when `isApiResource` is true, the plain/HTML body
(`toHttpResponse`) when it is false. -/
theorem timeout_recovered_resolve
    (s : ManagerState) (t : Task)
    (hfind : s.running.find? (fun u => u.idx == t.idx) = some t)
    (hf : (futureOf s t.idx).isSome = true) :
    futureOf (step s (Event.settle t.idx (RaceOutcome.raceErr RaceError.requestTimeout))) t.idx
      = some (FutureState.resolved (SettledValue.timeoutBody
          (if t.workerData.isApiResource then BodyFormat.json else BodyFormat.plainHtml)))
    ∧ t.idx ∈ (step s
        (Event.settle t.idx (RaceOutcome.raceErr RaceError.requestTimeout))).terminated := by
  have hf' : (s.futures.find? (fun p => p.1 == t.idx)).isSome = true := by
    simpa [futureOf] using hf
  simp only [step, hfind, settleStep]
  constructor
  · unfold futureOf
    rw [runNext_futures]
    dsimp only
    rw [find?_setFuture _ _ _ hf']
    simp [toHttpApiResponse, toHttpResponse]
  · rw [runNext_terminated]
    dsimp only
    simp

/-- C4 witness: timing out the single running task of `sEmptyQ` (an API
resource) resolves its promise with the JSON timeout body and terminates
its worker. -/
theorem timeout_recovered_resolve_witness :
    futureOf (step sEmptyQ
        (Event.settle taskA.idx (RaceOutcome.raceErr RaceError.requestTimeout))) taskA.idx
      = some (FutureState.resolved (SettledValue.timeoutBody
          (if taskA.workerData.isApiResource then BodyFormat.json else BodyFormat.plainHtml)))
    ∧ taskA.idx ∈ (step sEmptyQ
        (Event.settle taskA.idx (RaceOutcome.raceErr RaceError.requestTimeout))).terminated :=
  timeout_recovered_resolve sEmptyQ taskA rfl (by decide)

/-! ## Abnormal worker exit (claim C5) -/

/-- C5: when an admitted task's worker exits abnormally (non-zero exit code)
before the timeout fires, the `.catch` callback re-throws the
`ErrorWorkerExit` instead of resolving or rejecting the caller's promise:
the promise map is left untouched (the caller's future stays unsettled) and
the error escapes the per-task outcome channel (recorded in `escaped`). -/
theorem worker_exit_escapes
    (s : ManagerState) (t : Task) (c : Int)
    (hfind : s.running.find? (fun u => u.idx == t.idx) = some t)
    (hc : c ≠ 0) :
    (step s (Event.settle t.idx (RaceOutcome.raceErr (RaceError.workerExit c)))).futures
      = s.futures
    ∧ futureOf (step s (Event.settle t.idx (RaceOutcome.raceErr (RaceError.workerExit c)))) t.idx
      = futureOf s t.idx
    ∧ t.idx ∈ (step s
        (Event.settle t.idx (RaceOutcome.raceErr (RaceError.workerExit c)))).escaped := by
  simp only [step, hfind, if_neg hc]
  refine ⟨rfl, rfl, ?_⟩
  simp [settleStep]

/-- C5 witness: an abnormal exit (code 1) of `sEmptyQ`'s running task leaves
its promise pending and records the escaped error. -/
theorem worker_exit_escapes_witness :
    (step sEmptyQ (Event.settle taskA.idx
        (RaceOutcome.raceErr (RaceError.workerExit 1)))).futures = sEmptyQ.futures
    ∧ futureOf (step sEmptyQ (Event.settle taskA.idx
        (RaceOutcome.raceErr (RaceError.workerExit 1)))) taskA.idx
      = futureOf sEmptyQ taskA.idx
    ∧ taskA.idx ∈ (step sEmptyQ (Event.settle taskA.idx
        (RaceOutcome.raceErr (RaceError.workerExit 1)))).escaped :=
  worker_exit_escapes sEmptyQ taskA 1 rfl (by decide)

/-! ## Application-level error (claim C6) -/

/-- C6: when the worker's error channel delivers an explicit
application-level error, the caller's promise is rejected with that same
error, nothing escapes the scheduler (no re-throw), and — when a task is
queued and the slot bound held — the next queued task is admitted by the
re-invoked `runNext`. -/
theorem app_error_rejects
    (s : ManagerState) (t : Task) (m : String)
    (hfind : s.running.find? (fun u => u.idx == t.idx) = some t)
    (hf : (futureOf s t.idx).isSome = true) :
    futureOf (step s (Event.settle t.idx (RaceOutcome.raceErr (RaceError.appError m)))) t.idx
      = some (FutureState.rejected m)
    ∧ (step s (Event.settle t.idx (RaceOutcome.raceErr (RaceError.appError m)))).escaped
      = s.escaped
    ∧ ∀ u rest, s.taskQueue = u :: rest → s.currWorker ≤ (s.maxWorkers : Int) →
        (step s (Event.settle t.idx (RaceOutcome.raceErr (RaceError.appError m)))).admitted
          = s.admitted ++ [u]
        ∧ (step s (Event.settle t.idx (RaceOutcome.raceErr (RaceError.appError m)))).taskQueue
          = rest := by
  have hf' : (s.futures.find? (fun p => p.1 == t.idx)).isSome = true := by
    simpa [futureOf] using hf
  simp only [step, hfind, settleStep]
  refine ⟨?_, ?_, ?_⟩
  · unfold futureOf
    rw [runNext_futures]
    dsimp only
    rw [find?_setFuture _ _ _ hf']
    simp
  · rw [runNext_escaped]
  · intro u rest hq hb
    unfold runNext
    rw [if_neg (by dsimp only; omega)]
    dsimp only
    rw [hq]
    exact ⟨rfl, rfl⟩

/-- C6 witness: an application error on `sTwo`'s running task rejects its
promise with that error and the queued second task is admitted. -/
theorem app_error_rejects_witness :
    futureOf (step sTwo (Event.settle taskA.idx
        (RaceOutcome.raceErr (RaceError.appError "boom")))) taskA.idx
      = some (FutureState.rejected "boom")
    ∧ (step sTwo (Event.settle taskA.idx
        (RaceOutcome.raceErr (RaceError.appError "boom")))).escaped = sTwo.escaped
    ∧ ∀ u rest, sTwo.taskQueue = u :: rest → sTwo.currWorker ≤ (sTwo.maxWorkers : Int) →
        (step sTwo (Event.settle taskA.idx
            (RaceOutcome.raceErr (RaceError.appError "boom")))).admitted
          = sTwo.admitted ++ [u]
        ∧ (step sTwo (Event.settle taskA.idx
            (RaceOutcome.raceErr (RaceError.appError "boom")))).taskQueue = rest :=
  app_error_rejects sTwo taskA "boom" rfl (by decide)

/-! ## Termination on every rejected outcome (claim C10) -/

/-- C10: on every rejected race outcome — timeout, abnormal worker exit, or
explicit application error alike — the `.catch` callback calls
`worker.terminate()` before classifying the error, so forcible termination is
not limited to the timeout branch; a successfully settled race (worker
message) terminates nothing. -/
theorem reject_branches_terminate
    (s : ManagerState) (t : Task) (c : Int) (m : String)
    (hfind : s.running.find? (fun u => u.idx == t.idx) = some t)
    (hc : c ≠ 0) :
    t.idx ∈ (step s
        (Event.settle t.idx (RaceOutcome.raceErr RaceError.requestTimeout))).terminated
    ∧ t.idx ∈ (step s
        (Event.settle t.idx (RaceOutcome.raceErr (RaceError.workerExit c)))).terminated
    ∧ t.idx ∈ (step s
        (Event.settle t.idx (RaceOutcome.raceErr (RaceError.appError m)))).terminated
    ∧ ∀ r : WorkerResponse,
        (step s (Event.settle t.idx (RaceOutcome.message r))).terminated = s.terminated := by
  refine ⟨?_, ?_, ?_, ?_⟩
  · simp only [step, hfind, settleStep]
    rw [runNext_terminated]
    dsimp only
    simp
  · simp only [step, hfind, if_neg hc]
    simp [settleStep]
  · simp only [step, hfind, settleStep]
    rw [runNext_terminated]
    dsimp only
    simp
  · intro r
    simp only [step, hfind, settleStep]
    rw [runNext_terminated]

/-- C10 witness: all three rejection branches on `sEmptyQ`'s running task
terminate its worker; the success branch terminates nothing. -/
theorem reject_branches_terminate_witness :
    taskA.idx ∈ (step sEmptyQ
        (Event.settle taskA.idx (RaceOutcome.raceErr RaceError.requestTimeout))).terminated
    ∧ taskA.idx ∈ (step sEmptyQ
        (Event.settle taskA.idx (RaceOutcome.raceErr (RaceError.workerExit 1)))).terminated
    ∧ taskA.idx ∈ (step sEmptyQ
        (Event.settle taskA.idx (RaceOutcome.raceErr (RaceError.appError "e")))).terminated
    ∧ ∀ r : WorkerResponse,
        (step sEmptyQ (Event.settle taskA.idx (RaceOutcome.message r))).terminated
          = sEmptyQ.terminated :=
  reject_branches_terminate sEmptyQ taskA 1 "e" rfl (by decide)

/-! ## Response formatting split (claim C8) -/

/-- C8: for every resolved outcome `{isApiResource, httpCode, data}` reaching
`handleRequest`'s `.then` continuation, the response is a JSON body with
status `httpCode` when `isApiResource` is true and a raw body with status
`httpCode` when it is false, for identical `httpCode`/`data` inputs. -/
theorem response_format_split (code : Nat) (d : String) :
    handleRequestRespond { isApiResource := true, httpCode := code, data := d }
      = HttpAction.jsonBody code d
    ∧ handleRequestRespond { isApiResource := false, httpCode := code, data := d }
      = HttpAction.sendBody code d :=
  ⟨rfl, rfl⟩

/-! ## Decimal representation of `Nat` (for claim C9)

`createQueueId` interpolates `taskQueue.length` and `Date.now()` into a
string.  To reason about collisions we need that `Nat.repr` is injective and
never produces the separator character; core and Mathlib only provide length
lemmas about `Nat.toDigitsCore`, so we develop the facts here via a
structurally transparent recursion `repChars`. -/

/-- The decimal digit list of `n`, most significant first; equal to
`Nat.toDigits 10 n`. -/
def repChars (n : Nat) : List Char :=
  if _h : n < 10 then [Nat.digitChar n]
  else repChars (n / 10) ++ [Nat.digitChar (n % 10)]
termination_by n
decreasing_by
  exact Nat.div_lt_self (by omega) (by omega)

lemma repChars_of_lt (n : Nat) (h : n < 10) : repChars n = [Nat.digitChar n] := by
  rw [repChars.eq_def]
  rw [dif_pos h]

lemma repChars_of_ge (n : Nat) (h : ¬ n < 10) :
    repChars n = repChars (n / 10) ++ [Nat.digitChar (n % 10)] := by
  rw [repChars.eq_def]
  rw [dif_neg h]

lemma toDigitsCore_eq_repChars (fuel : Nat) : ∀ (n : Nat) (ds : List Char), n < fuel →
    Nat.toDigitsCore 10 fuel n ds = repChars n ++ ds := by
  induction fuel with
  | zero => exact fun n ds h => absurd h (Nat.not_lt_zero n)
  | succ fuel ih =>
    intro n ds h
    simp only [Nat.toDigitsCore]
    by_cases h0 : n / 10 = 0
    · rw [if_pos h0]
      have hn : n < 10 := by omega
      rw [repChars_of_lt n hn, Nat.mod_eq_of_lt hn]
      rfl
    · rw [if_neg h0]
      have hlt : n / 10 < fuel := by omega
      rw [ih (n / 10) (Nat.digitChar (n % 10) :: ds) hlt]
      rw [repChars_of_ge n (by omega)]
      simp [List.append_assoc]

lemma repr_eq_repChars (n : Nat) : Nat.repr n = (repChars n).asString := by
  unfold Nat.repr Nat.toDigits
  rw [toDigitsCore_eq_repChars (n + 1) n [] (Nat.lt_succ_self n)]
  rw [List.append_nil]

/-- Numeric value of a decimal digit character. -/
def digitVal (c : Char) : Nat := c.toNat - 48

lemma digitVal_digitChar {d : Nat} (h : d < 10) : digitVal (Nat.digitChar d) = d := by
  have : ∀ e, e < 10 → digitVal (Nat.digitChar e) = e := by decide
  exact this d h

lemma digitChar_ne_dot {d : Nat} (h : d < 10) : Nat.digitChar d ≠ '.' := by
  have : ∀ e, e < 10 → Nat.digitChar e ≠ '.' := by decide
  exact this d h

lemma foldl_repChars (n : Nat) : ∀ a : Nat,
    (repChars n).foldl (fun x c => 10 * x + digitVal c) a
      = a * 10 ^ (repChars n).length + n := by
  induction n using Nat.strong_induction_on with
  | _ n ih =>
    intro a
    by_cases h : n < 10
    · rw [repChars_of_lt n h]
      simp only [List.foldl_cons, List.foldl_nil, List.length_cons, List.length_nil]
      rw [digitVal_digitChar h, pow_one]
      omega
    · rw [repChars_of_ge n h]
      rw [List.foldl_append]
      rw [ih (n / 10) (Nat.div_lt_self (by omega) (by omega)) a]
      simp only [List.foldl_cons, List.foldl_nil, List.length_append,
        List.length_cons, List.length_nil, Nat.zero_add]
      rw [digitVal_digitChar (Nat.mod_lt n (by omega)), pow_succ, ← mul_assoc]
      generalize a * 10 ^ (repChars (n / 10)).length = x
      omega

lemma charsVal_repChars (n : Nat) :
    (repChars n).foldl (fun x c => 10 * x + digitVal c) 0 = n := by
  have := foldl_repChars n 0
  simpa using this

lemma repChars_inj {m n : Nat} (h : repChars m = repChars n) : m = n := by
  have hm := charsVal_repChars m
  rw [h, charsVal_repChars] at hm
  exact hm.symm

lemma dot_not_mem_repChars (n : Nat) : '.' ∉ repChars n := by
  induction n using Nat.strong_induction_on with
  | _ n ih =>
    by_cases h : n < 10
    · rw [repChars_of_lt n h]
      intro hmem
      rw [List.mem_singleton] at hmem
      exact digitChar_ne_dot h hmem.symm
    · rw [repChars_of_ge n h]
      intro hmem
      rw [List.mem_append] at hmem
      rcases hmem with hmem | hmem
      · exact ih (n / 10) (Nat.div_lt_self (by omega) (by omega)) hmem
      · rw [List.mem_singleton] at hmem
        exact digitChar_ne_dot (Nat.mod_lt n (by omega)) hmem.symm

lemma toString_nat_data (k : Nat) : (toString k).data = repChars k := by
  show (Nat.repr k).data = repChars k
  rw [repr_eq_repChars]
  rfl

lemma append_dot_cancel :
    ∀ (l1 l2 l1' l2' : List Char), '.' ∉ l1 → '.' ∉ l1' →
      l1 ++ '.' :: l2 = l1' ++ '.' :: l2' → l1 = l1' ∧ l2 = l2' := by
  intro l1
  induction l1 with
  | nil =>
    intro l2 l1' l2' h1 h1' heq
    cases l1' with
    | nil => simpa using heq
    | cons c cs =>
      rw [List.nil_append, List.cons_append] at heq
      injection heq with hch htl
      refine absurd ?_ h1'
      rw [← hch]
      exact List.mem_cons_self _ _
  | cons c cs ih =>
    intro l2 l1' l2' h1 h1' heq
    cases l1' with
    | nil =>
      rw [List.nil_append, List.cons_append] at heq
      injection heq with hch htl
      refine absurd ?_ h1
      rw [hch]
      exact List.mem_cons_self _ _
    | cons c' cs' =>
      rw [List.cons_append, List.cons_append] at heq
      injection heq with hch htl
      have hcs : '.' ∉ cs := fun hm => h1 (List.mem_cons_of_mem _ hm)
      have hcs' : '.' ∉ cs' := fun hm => h1' (List.mem_cons_of_mem _ hm)
      obtain ⟨hA, hB⟩ := ih l2 cs' l2' hcs hcs' htl
      exact ⟨by rw [hch, hA], hB⟩

/-! ## Queue-id uniqueness (claim C9) -/

/-- The first of two same-millisecond submissions in the C9 counterexample. -/
def taskSameMs1 : Task :=
  { idx := 0,
    workerData := { queueId := createQueueId 0 1000, useLogger := false,
                    isApiResource := true, handlerPath := "a", request := "x" } }

/-- The second of two same-millisecond submissions in the C9 counterexample:
it observes the same queue length (0) and timestamp, hence the same id. -/
def taskSameMs2 : Task :=
  { idx := 1,
    workerData := { queueId := createQueueId 0 1000, useLogger := false,
                    isApiResource := true, handlerPath := "b", request := "y" } }

/-- C9 counterexample: it is not true that any two distinct submissions get
distinct ids.  Two back-to-back submissions in the same millisecond
(`Date.now() = 1000`) on a pool with free capacity each observe an empty
queue (`taskQueue.length = 0`), so both ids are `"q0.1000"`. -/
theorem queue_id_not_unique :
    ¬ (∀ (m : Nat) (es : List Event) (t1 t2 : Task),
        t1 ∈ (run (initState m) es).submitted →
        t2 ∈ (run (initState m) es).submitted →
        t1.idx ≠ t2.idx →
        t1.workerData.queueId ≠ t2.workerData.queueId) := by
  intro h
  exact h 10 [Event.addTask "a" true "x" 1000, Event.addTask "b" true "y" 1000]
    taskSameMs1 taskSameMs2 (by decide) (by decide) (by decide) rfl

/-- C9 (amended): `createQueueId` is injective in the observed pair
(queue length, timestamp) — ids differ whenever the queue length or the
`Date.now()` millisecond differs — but the id is a function of that pair
alone, so two distinct submissions observing the same queue length in the
same millisecond receive the same id: ids are not unique per submission. -/
theorem createQueueId_injective_on_pairs
    (q d q' d' : Nat) (h : createQueueId q d = createQueueId q' d') :
    q = q' ∧ d = d' := by
  unfold createQueueId at h
  have hdata2 : ((['q'] ++ (toString q).data) ++ ['.']) ++ (toString d).data
      = ((['q'] ++ (toString q').data) ++ ['.']) ++ (toString d').data :=
    congrArg String.data h
  have h3 : 'q' :: ((toString q).data ++ '.' :: (toString d).data)
      = 'q' :: ((toString q').data ++ '.' :: (toString d').data) := by
    simpa [List.append_assoc] using hdata2
  injection h3 with _ h4
  have hdotq : '.' ∉ (toString q).data := by
    rw [toString_nat_data]
    exact dot_not_mem_repChars q
  have hdotq' : '.' ∉ (toString q').data := by
    rw [toString_nat_data]
    exact dot_not_mem_repChars q'
  obtain ⟨hA, hB⟩ := append_dot_cancel _ _ _ _ hdotq hdotq' h4
  rw [toString_nat_data, toString_nat_data] at hA
  have hBr : (toString d).data = (toString d').data := hB
  rw [toString_nat_data, toString_nat_data] at hBr
  exact ⟨repChars_inj hA, repChars_inj hBr⟩

/-- C9 witness: the pair injectivity applied at the concrete id of queue
length 3 and timestamp 7. -/
theorem createQueueId_injective_on_pairs_witness : (3 : Nat) = 3 ∧ (7 : Nat) = 7 :=
  createQueueId_injective_on_pairs 3 7 3 7 rfl

end HttpServer
